import Mathlib

/-!
Shallow embedding of the markdown-converter repository
(src/lib/converters.ts, src/lib/security.ts, src/lib/markdown-parser.ts)
for checking the natural-language specification against the code.

Strings are modelled as Lean `String` and `List Char`; JavaScript numbers
holding `Date.now()` timestamps are modelled as `Int`; `try`/`catch` around
the parser is modelled by `Except String`.
-/

namespace MdConv

/-! ### Character and string helpers -/

def isAsciiAlpha (c : Char) : Bool :=
  (97 ≤ c.toNat && c.toNat ≤ 122) || (65 ≤ c.toNat && c.toNat ≤ 90)

def isAsciiDigit (c : Char) : Bool :=
  48 ≤ c.toNat && c.toNat ≤ 57

def toLowerCh (c : Char) : Char :=
  if 65 ≤ c.toNat && c.toNat ≤ 90 then Char.ofNat (c.toNat + 32) else c

def strL (s : String) : List Char := s.data

/-- The backtick character (written via its code point). -/
def btick : Char := Char.ofNat 96

/-- Whitespace characters relevant to the JavaScript regex class on the
one-line inputs involved (space, tab, carriage return, newline, form feed,
vertical tab). -/
def isWsCh (c : Char) : Bool :=
  c = ' ' || c = '\t' || c = '\r' || c = '\n' || c.toNat = 11 || c.toNat = 12

/-- `p` holds at some suffix of the list. -/
def anySuffix (p : List Char → Bool) : List Char → Bool
  | [] => p []
  | c :: cs => p (c :: cs) || anySuffix p cs

/-- Substring test: `needle` occurs contiguously in `hay`. -/
def containsStr (hay needle : String) : Bool :=
  anySuffix (fun t => needle.data.isPrefixOf t) hay.data

/-! ### src/lib/security.ts : sanitizeFilename -/

/-- The character class `[a-zA-Z0-9._-]` of the first replace in
`sanitizeFilename`. -/
def allowedFilenameChar (c : Char) : Bool :=
  isAsciiAlpha c || isAsciiDigit c || c = '.' || c = '_' || c = '-'

/-- `filename.replace(/[^a-zA-Z0-9._-]/g, '_')`. -/
def replaceUnsafeChars (l : List Char) : List Char :=
  l.map (fun c => if allowedFilenameChar c then c else '_')

/-- `.replace(/^\.+/, '')`. -/
def stripLeadingDots (l : List Char) : List Char :=
  l.dropWhile (fun c => c = '.')

/-- `.replace(/\.+$/, '')`. -/
def stripTrailingDots (l : List Char) : List Char :=
  (l.reverse.dropWhile (fun c => c = '.')).reverse

/-- `sanitizeFilename` from src/lib/security.ts: replace characters outside
`[a-zA-Z0-9._-]` with `_`, strip leading dots, strip trailing dots, then
`substring(0, 255)`. -/
def sanitizeFilename (filename : String) : String :=
  String.mk ((stripTrailingDots (stripLeadingDots (replaceUnsafeChars filename.data))).take 255)

def startsWithDot (s : String) : Bool :=
  match s.data with
  | c :: _ => c = '.'
  | [] => false

/-! ### src/lib/security.ts : detectMaliciousContent -/

/-- Case-normalised character list of a string (the regexes carry the `i`
flag, so matching is done on the lowercased text). -/
def lowerL (s : String) : List Char := s.data.map toLowerCh

def skipWs : List Char → List Char
  | [] => []
  | c :: cs => if isWsCh c then skipWs cs else c :: cs

/-- Matches `lit` followed by `\s*` followed by the single character `c`
at the head of the list (the shape of `/onclick\s*=/` etc.). -/
def litThenWsThen (lit : List Char) (c : Char) (s : List Char) : Bool :=
  lit.isPrefixOf s &&
    match skipWs (s.drop lit.length) with
    | d :: _ => d = c
    | [] => false

/-- Matches `/<script[^>]*>/` at the head of the list: the literal
`<script` followed by a later `>` (the `[^>]*` consumes up to the first
`>` ). -/
def scriptTagAt (s : List Char) : Bool :=
  (strL "<script").isPrefixOf s && (s.drop 7).any (fun c => c = '>')

/-- `detectMaliciousContent` from src/lib/security.ts: the disjunction of
the nine case-insensitive suspicious patterns tested against the content. -/
def detectMaliciousContent (content : String) : Bool :=
  let s := lowerL content
  anySuffix scriptTagAt s ||
  anySuffix (fun t => (strL "javascript:").isPrefixOf t) s ||
  anySuffix (fun t => (strL "data:text/html").isPrefixOf t) s ||
  anySuffix (fun t => (strL "vbscript:").isPrefixOf t) s ||
  anySuffix (litThenWsThen (strL "onload") '=') s ||
  anySuffix (litThenWsThen (strL "onerror") '=') s ||
  anySuffix (litThenWsThen (strL "onclick") '=') s ||
  anySuffix (litThenWsThen (strL "eval") '(') s ||
  anySuffix (fun t => (strL "document.write").isPrefixOf t) s

/-! ### src/lib/security.ts : RateLimiter -/

structure RateLimiter where
  maxRequests : Nat
  windowMs : Int
  requests : List Int

/-- A freshly constructed limiter: `requests` starts empty. -/
def RateLimiter.init (maxRequests : Nat) (windowMs : Int) : RateLimiter :=
  { maxRequests := maxRequests, windowMs := windowMs, requests := [] }

/-- The pruning step shared by both methods:
`this.requests.filter(time => now - time < this.windowMs)`. -/
def RateLimiter.pruned (rl : RateLimiter) (now : Int) : List Int :=
  rl.requests.filter (fun time => decide (now - time < rl.windowMs))

/-- `canMakeRequest` from src/lib/security.ts, with `Date.now()` passed in
explicitly; returns the result together with the updated state. -/
def RateLimiter.canMakeRequest (rl : RateLimiter) (now : Int) : Bool × RateLimiter :=
  let pruned := rl.pruned now
  if rl.maxRequests ≤ pruned.length then
    (false, { rl with requests := pruned })
  else
    (true, { rl with requests := pruned ++ [now] })

/-- `getRemainingRequests`: `Math.max(0, maxRequests - requests.length)` is
truncated `Nat` subtraction. -/
def RateLimiter.getRemainingRequests (rl : RateLimiter) (now : Int) : Nat × RateLimiter :=
  let pruned := rl.pruned now
  (rl.maxRequests - pruned.length, { rl with requests := pruned })

/-! ### src/lib/markdown-parser.ts : sanitizeUrl -/

/-- Modelled from the spec: the WHATWG `URL` constructor used by
`MarkdownParser.sanitizeUrl` is a platform builtin, not code of this
repository. Per the spec ("parses the URL; returns it unchanged only if its
scheme is one of http, https, mailto; any parse failure also yields the
placeholder") we model URL parsing as extraction of a scheme: an ASCII
letter, then letters/digits/`+`/`-`/`.`, terminated by `:`. The result is
lowercased and keeps the trailing colon, as the `protocol` property does;
`none` models a constructor throw. -/
def parseProtocol (url : String) : Option String :=
  match url.data with
  | [] => none
  | c :: cs =>
    if isAsciiAlpha c then
      let rest := cs.takeWhile (fun d => isAsciiAlpha d || isAsciiDigit d || d = '+' || d = '-' || d = '.')
      match cs.drop rest.length with
      | ':' :: _ => some (String.mk ((toLowerCh c :: rest.map toLowerCh) ++ [':']))
      | _ => none
    else none

def safeProtocols : List String := ["http:", "https:", "mailto:"]

/-- `sanitizeUrl` from src/lib/markdown-parser.ts: return the URL unchanged
when it parses with an allow-listed protocol, `#` on a disallowed protocol
or a parse failure. -/
def sanitizeUrl (url : String) : String :=
  match parseProtocol url with
  | some p => if safeProtocols.contains p then url else "#"
  | none => "#"

/-- Whether the URL parses with an allow-listed protocol. -/
def urlAllowed (url : String) : Bool :=
  match parseProtocol url with
  | some p => safeProtocols.contains p
  | none => false

/-! ### Document model and tokenizer

The tokenizer (`marked.lexer` / `marked.parser`) is a third-party library,
not code of this repository; the block scanner below is modelled from the
spec (section 4.2). The node type mirrors the `marked` token fields that
src/lib/markdown-parser.ts reads (`depth`, `text`, `ordered`, `items`,
`lang`, `raw`); a missing language tag is the empty string, matching the
falsy `token.lang || ...` tests in the source. -/

inductive DocumentNode where
  | heading (depth : Nat) (text : String)
  | paragraph (text : String)
  | list (ordered : Bool) (items : List String)
  | code (lang : String) (text : String)
  | blockquote (text : String)
  | hr (raw : String)
  | rawFallback (ty : String) (raw : String)

/-- Split a character list into lines at newline characters. -/
def splitLinesAux (cur : List Char) : List Char → List (List Char)
  | [] => [cur.reverse]
  | c :: cs => if c = '\n' then cur.reverse :: splitLinesAux [] cs else splitLinesAux (c :: cur) cs

def splitLines (l : List Char) : List (List Char) := splitLinesAux [] l

def isLineWs (c : Char) : Bool := c = ' ' || c = '\t' || c = '\r'

def trimL (l : List Char) : List Char :=
  ((l.dropWhile isLineWs).reverse.dropWhile isLineWs).reverse

def isBlankLine (l : List Char) : Bool := l.all isLineWs

/-- Modelled from the spec: a line of three or more backticks opens a fenced
code block; the trailing token is the language tag. -/
def openFence (l : List Char) : Option (List Char) :=
  let bt := l.takeWhile (fun c => c = btick)
  if 3 ≤ bt.length then some (trimL (l.drop bt.length)) else none

def isCloseFence (l : List Char) : Bool :=
  let bt := l.takeWhile (fun c => c = btick)
  3 ≤ bt.length && isBlankLine (l.drop bt.length)

/-- Modelled from the spec: 1 to 6 leading `#` characters followed by
whitespace open a heading of that level. -/
def headingInfo (l : List Char) : Option (Nat × List Char) :=
  let hs := l.takeWhile (fun c => c = '#')
  if 1 ≤ hs.length && hs.length ≤ 6 then
    match l.drop hs.length with
    | c :: rest => if isLineWs c then some (hs.length, trimL rest) else none
    | [] => none
  else none

/-- Modelled from the spec: a line starting `-`, `*` or `+` plus whitespace
is an unordered list item; the item text is the rest, trimmed. -/
def bulletItem (l : List Char) : Option (List Char) :=
  match l with
  | c :: d :: rest =>
    if (c = '-' || c = '*' || c = '+') && isLineWs d then some (trimL rest) else none
  | _ => none

/-- Modelled from the spec: digits then `.` then whitespace open an ordered
list item. -/
def orderedItem (l : List Char) : Option (List Char) :=
  let ds := l.takeWhile isAsciiDigit
  if 1 ≤ ds.length then
    match l.drop ds.length with
    | '.' :: d :: rest => if isLineWs d then some (trimL rest) else none
    | _ => none
  else none

/-- Modelled from the spec: a line of three or more repeated `-`, `*` or `_`
(optionally spaced) with no other content is a horizontal rule. -/
def isHrLine (l : List Char) : Bool :=
  let t := l.filter (fun c => !isLineWs c)
  3 ≤ t.length &&
    (t.all (fun c => c = '-') || t.all (fun c => c = '*') || t.all (fun c => c = '_'))

def startsQuote (l : List Char) : Bool :=
  match l with
  | '>' :: _ => true
  | _ => false

def startsOtherBlock (l : List Char) : Bool :=
  (openFence l).isSome || (headingInfo l).isSome || startsQuote l ||
  (bulletItem l).isSome || (orderedItem l).isSome || isHrLine l

/-- Collect the body of a fenced code block up to the closing fence (or end
of input, per the unterminated-fence policy). -/
def codeBody : List (List Char) → List (List Char) × List (List Char)
  | [] => ([], [])
  | l :: ls =>
    if isCloseFence l then ([], ls)
    else
      let r := codeBody ls
      (l :: r.1, r.2)

/-- Collect consecutive `>`-prefixed lines, stripping the marker and one
following space. -/
def quoteBody : List (List Char) → List (List Char) × List (List Char)
  | [] => ([], [])
  | l :: ls =>
    match l with
    | '>' :: rest =>
      let stripped := match rest with
        | ' ' :: r2 => r2
        | r2 => r2
      let r := quoteBody ls
      (trimL stripped :: r.1, r.2)
    | _ => ([], l :: ls)

/-- Collect consecutive same-style list items. -/
def listBody (item : List Char → Option (List Char)) :
    List (List Char) → List String × List (List Char)
  | [] => ([], [])
  | l :: ls =>
    match item l with
    | some t =>
      let r := listBody item ls
      (String.mk t :: r.1, r.2)
    | none => ([], l :: ls)

/-- Collect paragraph continuation lines: non-blank lines that do not open
another block type. -/
def paraBody : List (List Char) → List (List Char) × List (List Char)
  | [] => ([], [])
  | l :: ls =>
    if isBlankLine l || startsOtherBlock l then ([], l :: ls)
    else
      let r := paraBody ls
      (l :: r.1, r.2)

def joinLines (ls : List (List Char)) : String :=
  String.intercalate "\n" (ls.map String.mk)

/-- Modelled from the spec (section 4.2): the block scanner, classifying
lines in the spec's priority order (fence, heading, blockquote, list,
horizontal rule, paragraph); blank lines separate blocks. Fuel counts
consumed lines; callers pass one more than the number of lines. -/
def parseBlocks : Nat → List (List Char) → List DocumentNode
  | 0, _ => []
  | _, [] => []
  | fuel + 1, l :: ls =>
    if isBlankLine l then parseBlocks fuel ls
    else match openFence l with
    | some lang =>
      let r := codeBody ls
      .code (String.mk lang) (joinLines r.1) :: parseBlocks fuel r.2
    | none =>
    match headingInfo l with
    | some hd => .heading hd.1 (String.mk hd.2) :: parseBlocks fuel ls
    | none =>
    if startsQuote l then
      let r := quoteBody (l :: ls)
      .blockquote (joinLines r.1) :: parseBlocks fuel r.2
    else match bulletItem l with
    | some _ =>
      let r := listBody bulletItem (l :: ls)
      .list false r.1 :: parseBlocks fuel r.2
    | none =>
    match orderedItem l with
    | some _ =>
      let r := listBody orderedItem (l :: ls)
      .list true r.1 :: parseBlocks fuel r.2
    | none =>
    if isHrLine l then .hr (String.mk l) :: parseBlocks fuel ls
    else
      let r := paraBody ls
      .paragraph (joinLines (trimL l :: r.1)) :: parseBlocks fuel r.2

/-- Modelled from the spec: `marked.lexer`, producing the ordered node
sequence of a source text. -/
def parseDocument (markdown : String) : List DocumentNode :=
  let ls := splitLines markdown.data
  parseBlocks (ls.length + 1) ls

/-! ### HTML rendering

`marked.parser` with the custom renderer configured by
`MarkdownParser.configureMarked` is third-party library code; the renderer
below is modelled from the spec (sections 4.2 and 4.3): block markup per
node kind, with inline emphasis and inline-code spans recognised inside
block text. Raw HTML written in the source text flows through untouched
here and is dealt with by the sanitization pass, exactly as the spec
assigns authority to the allow-list pass. -/

/-- Find the first occurrence of `delim`; return the characters before it
and the characters after it. -/
def findSplit (delim : List Char) : List Char → Option (List Char × List Char)
  | [] => none
  | c :: cs =>
    if delim.isPrefixOf (c :: cs) then some ([], (c :: cs).drop delim.length)
    else
      match findSplit delim cs with
      | some r => some (c :: r.1, r.2)
      | none => none

/-- Modelled from the spec: inline spans (bold, italic, inline code)
embedded in block text, emitted as markup. Fuel bounds the scan; callers
pass one more than the character count. -/
def renderInline : Nat → List Char → List Char
  | 0, s => s
  | _ + 1, [] => []
  | fuel + 1, c :: cs =>
    if c = '*' || c = '_' then
      match cs with
      | d :: cs2 =>
        if d = c then
          match findSplit [c, c] cs2 with
          | some r => strL "<strong>" ++ r.1 ++ strL "</strong>" ++ renderInline fuel r.2
          | none => c :: renderInline fuel cs
        else
          match findSplit [c] cs with
          | some r => strL "<em>" ++ r.1 ++ strL "</em>" ++ renderInline fuel r.2
          | none => c :: renderInline fuel cs
      | [] => [c]
    else if c = btick then
      match findSplit [btick] cs with
      | some r => strL "<code>" ++ r.1 ++ strL "</code>" ++ renderInline fuel r.2
      | none => c :: renderInline fuel cs
    else c :: renderInline fuel cs

def renderInlineStr (s : String) : String :=
  String.mk (renderInline (s.data.length + 1) s.data)

/-- `escapeHtml` from src/lib/markdown-parser.ts. -/
def escapeHtml (text : String) : String :=
  String.mk (text.data.flatMap (fun c =>
    if c = '&' then strL "&amp;"
    else if c = '<' then strL "&lt;"
    else if c = '>' then strL "&gt;"
    else if c = '"' then strL "&quot;"
    else if c = '\'' then strL "&#39;"
    else [c]))

/-- Modelled from the spec (section 4.3): markup for one block node. -/
def renderBlockHtml : DocumentNode → String
  | .heading n text => "<h" ++ toString n ++ ">" ++ renderInlineStr text ++ "</h" ++ toString n ++ ">"
  | .paragraph text => "<p>" ++ renderInlineStr text ++ "</p>"
  | .list ordered items =>
    let tag := if ordered then "ol" else "ul"
    "<" ++ tag ++ ">" ++
      String.join (items.map (fun t => "<li>" ++ renderInlineStr t ++ "</li>")) ++
      "</" ++ tag ++ ">"
  | .code _ text => "<pre><code>" ++ escapeHtml text ++ "</code></pre>"
  | .blockquote text => "<blockquote>" ++ renderInlineStr text ++ "</blockquote>"
  | .hr _ => "<hr>"
  | .rawFallback _ raw => raw

def renderHtml (nodes : List DocumentNode) : String :=
  String.intercalate "\n" (nodes.map renderBlockHtml)

/-! ### The allow-list sanitization pass

`DOMPurify.sanitize` is a third-party library; the pass below is modelled
from the spec ("an allow-list sanitization pass restricted to a fixed tag
set ... and a fixed attribute set ...; any tag/attribute outside these
allow-lists is stripped") with the concrete allow-lists and forbid-lists
taken verbatim from the `DOMPurify.sanitize` configuration in
src/lib/markdown-parser.ts. -/

def allowedTags : List String :=
  ["h1", "h2", "h3", "h4", "h5", "h6",
   "p", "br", "strong", "em", "u", "s",
   "ul", "ol", "li", "blockquote",
   "code", "pre", "a", "img",
   "table", "thead", "tbody", "tr", "td", "th"]

def allowedAttrs : List String := ["href", "src", "alt", "title", "target", "rel"]

def forbiddenTags : List String := ["script", "object", "embed", "form", "input"]

def forbiddenAttrs : List String := ["onclick", "onload", "onerror", "onmouseover", "style"]

/-- A lexed fragment of an HTML string: either running text or one tag with
its attribute list (attribute name, raw value). -/
inductive HtmlPiece where
  | text (chars : List Char)
  | tag (name : String) (closing : Bool) (attrs : List (String × String))

/-- Split a word `name=value` (or a bare `name`) into a lowercased
attribute name and a raw value with surrounding quotes removed. -/
def parseAttrWord (w : List Char) : String × String :=
  let name := w.takeWhile (fun c => !(c = '='))
  let v0 := (w.drop name.length).drop 1
  let v := (v0.dropWhile (fun c => c = '"')).reverse.dropWhile (fun c => c = '"') |>.reverse
  (String.mk (name.map toLowerCh), String.mk v)

def splitWordsAux (cur : List Char) : List Char → List (List Char)
  | [] => if cur.isEmpty then [] else [cur.reverse]
  | c :: cs =>
    if isWsCh c then
      if cur.isEmpty then splitWordsAux [] cs else cur.reverse :: splitWordsAux [] cs
    else splitWordsAux (c :: cur) cs

/-- Attribute region of a tag, split on whitespace into `name=value` words;
a trailing `/` of a self-closing tag is dropped. -/
def parseAttrs (region : List Char) : List (String × String) :=
  ((splitWordsAux [] region).filter (fun w => !(w = ['/']))).map parseAttrWord

/-- Characters up to the first `>`, and the characters after it. -/
def splitAtGt : List Char → Option (List Char × List Char)
  | [] => none
  | c :: cs =>
    if c = '>' then some ([], cs)
    else
      match splitAtGt cs with
      | some r => some (c :: r.1, r.2)
      | none => none

/-- Lex an HTML string into text runs and tags. A `<` that does not start a
well-formed tag is kept as text. Fuel bounds the scan; callers pass one
more than the character count. -/
def lexHtml : Nat → List Char → List HtmlPiece
  | 0, s => [.text s]
  | _ + 1, [] => []
  | fuel + 1, c :: cs =>
    if c = '<' then
      let body := match cs with
        | '/' :: r => (true, r)
        | r => (false, r)
      let nameCs := body.2.takeWhile (fun d => isAsciiAlpha d || isAsciiDigit d)
      if nameCs.length = 0 then
        .text ['<'] :: lexHtml fuel cs
      else
        match splitAtGt (body.2.drop nameCs.length) with
        | some r =>
          .tag (String.mk (nameCs.map toLowerCh)) body.1 (parseAttrs r.1) :: lexHtml fuel r.2
        | none => .text ['<'] :: lexHtml fuel cs
    else
      let txt := (c :: cs).takeWhile (fun d => !(d = '<'))
      .text txt :: lexHtml fuel ((c :: cs).drop txt.length)

/-- Keep a piece only if it is text or an allow-listed, non-forbidden tag;
attributes of kept tags are filtered to the attribute allow-list minus the
forbid-list. -/
def sanitizePiece : HtmlPiece → Option HtmlPiece
  | .text t => some (.text t)
  | .tag name closing attrs =>
    if allowedTags.contains name && !forbiddenTags.contains name then
      some (.tag name closing
        (attrs.filter (fun a => allowedAttrs.contains a.1 && !forbiddenAttrs.contains a.1)))
    else none

def sanitizePieces (ps : List HtmlPiece) : List HtmlPiece :=
  ps.filterMap sanitizePiece

/-- Serialize a sanitized piece; a stray `<` in text is emitted as an
entity, as the sanitizer serializer does. -/
def emitPiece : HtmlPiece → String
  | .text t => String.mk (t.flatMap (fun c => if c = '<' then strL "&lt;" else [c]))
  | .tag name closing attrs =>
    "<" ++ (if closing then "/" else "") ++ name ++
      String.join (attrs.map (fun a => " " ++ a.1 ++ "=\"" ++ a.2 ++ "\"")) ++ ">"

def lexHtmlStr (s : String) : List HtmlPiece :=
  lexHtml (s.data.length + 1) s.data

/-- The allow-list sanitization pass over an HTML string. -/
def sanitizeHtml (html : String) : String :=
  String.join ((sanitizePieces (lexHtmlStr html)).map emitPiece)

/-- A sanitized piece is text, or a tag whose name is allow-listed and not
forbidden with every attribute allow-listed and not forbidden. -/
def pieceOk : HtmlPiece → Bool
  | .text _ => true
  | .tag name _ attrs =>
    allowedTags.contains name && !forbiddenTags.contains name &&
      attrs.all (fun a => allowedAttrs.contains a.1 && !forbiddenAttrs.contains a.1)

/-! ### src/lib/markdown-parser.ts : MarkdownParser -/

structure MarkdownParserOptions where
  sanitize : Bool := true
  allowHtml : Bool := false
  breaks : Bool := true
  gfm : Bool := true

/-- Ambient browser facts read by the code: `typeof window !== 'undefined'`
and the clock (`Date.now()`, `toISOString()`, `toLocaleString()`). -/
structure Env where
  hasWindow : Bool
  nowMs : Int
  nowIso : String
  nowLocale : String

structure ParsedMarkdown where
  html : String
  tokens : List DocumentNode
  plainText : String

/-- `tokenToPlainText` from src/lib/markdown-parser.ts. The unordered-list
bullet is transcribed exactly as the bytes in the source file decode:
U+00E2 U+20AC U+00A2 (the UTF-8 encoding of U+2022 read back as
Windows-1252), not U+2022. -/
def tokenToPlainText : DocumentNode → String
  | .heading depth text => String.mk (List.replicate depth '#') ++ " " ++ text
  | .paragraph text => text
  | .list ordered items =>
    String.intercalate "\n" (items.enum.map (fun p =>
      (if ordered then toString (p.1 + 1) ++ "." else "â€¢") ++ " " ++ p.2))
  | .code lang text => "```" ++ lang ++ "\n" ++ text ++ "\n```"
  | .blockquote text => "> " ++ text
  | .hr _ => "---"
  | .rawFallback _ raw => raw

/-- `toPlainText` from src/lib/markdown-parser.ts: nodes joined by a blank
line. -/
def toPlainText (tokens : List DocumentNode) : String :=
  String.intercalate "\n\n" (tokens.map tokenToPlainText)

/-- `MarkdownParser.parse` from src/lib/markdown-parser.ts: lex, render to
HTML, sanitize when the `sanitize` option is set and `window` is defined,
and derive the plain text. -/
def MarkdownParser.parse (opts : MarkdownParserOptions) (env : Env)
    (markdown : String) : ParsedMarkdown :=
  let tokens := parseDocument markdown
  let html0 := renderHtml tokens
  let html := if opts.sanitize && env.hasWindow then sanitizeHtml html0 else html0
  { html := html, tokens := tokens, plainText := toPlainText tokens }

/-! ### JSON values and the JSON renderer -/

inductive Json where
  | str (s : String)
  | num (n : Nat)
  | bool (b : Bool)
  | arr (xs : List Json)
  | obj (fields : List (String × Json))

/-- `tokenToJSON` from src/lib/markdown-parser.ts: the per-kind typed
fields, with `token.lang || 'text'` for code and the `{type, raw}` fallback
for every other token kind. -/
def tokenToJSON : DocumentNode → Json
  | .heading depth text =>
    .obj [("type", .str "heading"), ("level", .num depth), ("text", .str text)]
  | .paragraph text =>
    .obj [("type", .str "paragraph"), ("text", .str text)]
  | .list ordered items =>
    .obj [("type", .str "list"), ("ordered", .bool ordered),
      ("items", .arr (items.map (fun t =>
        .obj [("type", .str "list_item"), ("text", .str t)])))]
  | .code lang text =>
    .obj [("type", .str "code"),
      ("language", .str (if lang = "" then "text" else lang)),
      ("code", .str text)]
  | .blockquote text =>
    .obj [("type", .str "blockquote"), ("text", .str text)]
  | .hr raw =>
    .obj [("type", .str "hr"), ("raw", .str raw)]
  | .rawFallback ty raw =>
    .obj [("type", .str ty), ("raw", .str raw)]

/-- `MarkdownParser.toJSON` from src/lib/markdown-parser.ts. -/
def toJSONdoc (tokens : List DocumentNode) : Json :=
  .obj [("type", .str "document"), ("children", .arr (tokens.map tokenToJSON))]

/-- JSON string escaping for serialization. -/
def jsonEscape (s : String) : String :=
  String.mk (s.data.flatMap (fun c =>
    if c = '"' then ['\\', '"']
    else if c = '\\' then ['\\', '\\']
    else if c = '\n' then ['\\', 'n']
    else [c]))

mutual

/-- Compact `JSON.stringify`. -/
def Json.render : Json → String
  | .str s => "\"" ++ jsonEscape s ++ "\""
  | .num n => toString n
  | .bool b => if b then "true" else "false"
  | .arr xs => "[" ++ renderElems xs ++ "]"
  | .obj fs => "\x7b" ++ renderFields fs ++ "\x7d"

def renderElems : List Json → String
  | [] => ""
  | [x] => x.render
  | x :: y :: rest => x.render ++ "," ++ renderElems (y :: rest)

def renderFields : List (String × Json) → String
  | [] => ""
  | [f] => "\"" ++ jsonEscape f.1 ++ "\":" ++ f.2.render
  | f :: g :: rest => "\"" ++ jsonEscape f.1 ++ "\":" ++ f.2.render ++ "," ++ renderFields (g :: rest)

end

def indentOf (n : Nat) : String := String.mk (List.replicate n ' ')

mutual

/-- `JSON.stringify(x, null, 2)`: two-space-indented serialization. -/
def Json.renderPretty (ind : Nat) : Json → String
  | .str s => "\"" ++ jsonEscape s ++ "\""
  | .num n => toString n
  | .bool b => if b then "true" else "false"
  | .arr [] => "[]"
  | .arr (x :: xs) =>
    "[\n" ++ renderElemsP (ind + 2) (x :: xs) ++ "\n" ++ indentOf ind ++ "]"
  | .obj [] => "\x7b\x7d"
  | .obj (f :: fs) =>
    "\x7b\n" ++ renderFieldsP (ind + 2) (f :: fs) ++ "\n" ++ indentOf ind ++ "\x7d"

def renderElemsP (ind : Nat) : List Json → String
  | [] => ""
  | [x] => indentOf ind ++ x.renderPretty ind
  | x :: y :: rest =>
    indentOf ind ++ x.renderPretty ind ++ ",\n" ++ renderElemsP ind (y :: rest)

def renderFieldsP (ind : Nat) : List (String × Json) → String
  | [] => ""
  | [f] => indentOf ind ++ "\"" ++ jsonEscape f.1 ++ "\": " ++ f.2.renderPretty ind
  | f :: g :: rest =>
    indentOf ind ++ "\"" ++ jsonEscape f.1 ++ "\": " ++ f.2.renderPretty ind ++ ",\n" ++
      renderFieldsP ind (g :: rest)

end

/-! ### src/lib/converters.ts : FileConverter -/

inductive ConversionFormat where
  | html
  | json
  | txt

structure ConversionResult where
  content : String
  filename : String
  mimeType : String
  success : Bool
  error : Option String

structure ConversionOptions where
  originalFilename : Option String := none
  prettify : Bool := false
  includeMetadata : Bool := false

/-- `originalFilename.replace(/\.[^/.]+$/, '')`: drop a final dot followed
by one or more characters none of which is `/` or `.`. -/
def stripExtension (name : String) : String :=
  let r := name.data.reverse
  let ext := r.takeWhile (fun c => !(c = '/' || c = '.'))
  match r.drop ext.length with
  | '.' :: restR => if 1 ≤ ext.length then String.mk restR.reverse else name
  | _ => name

/-- `getBaseFilename` from src/lib/converters.ts: sanitize the
extension-stripped original name, falling back to a timestamp-derived name
when absent or sanitized to empty. -/
def getBaseFilename (now : Int) : Option String → String
  | none => "converted_" ++ toString now
  | some orig =>
    let s := sanitizeFilename (stripExtension orig)
    if s = "" then "converted_" ++ toString now else s

/-- The CSS text returned by `getHTMLStyles`; no claim depends on its
contents, so the long literal is abbreviated to a representative string. -/
def getHTMLStyles : String :=
  "body \x7b font-family: sans-serif; line-height: 1.6; \x7d"

/-- `generateMetadata` from src/lib/converters.ts. -/
def generateMetadata (env : Env) : String :=
  "\n    <meta name=\"generator\" content=\"Markdown Converter\">\n    <meta name=\"converted-at\" content=\"" ++
    env.nowIso ++ "\">\n    <meta name=\"format\" content=\"html\">"

/-- `.replace(/></g, '>\n<')`: insert a newline between adjacent tags. -/
def insertNlBetweenTags : List Char → List Char
  | [] => []
  | c :: rest =>
    match rest with
    | d :: _ =>
      if c = '>' && d = '<' then c :: '\n' :: insertNlBetweenTags rest
      else c :: insertNlBetweenTags rest
    | [] => [c]

/-- `prettifyHTML` from src/lib/converters.ts: break between adjacent tags,
trim every line, drop blank lines, rejoin. -/
def prettifyHTML (html : String) : String :=
  let ls := splitLines (insertNlBetweenTags html.data)
  String.intercalate "\n"
    (((ls.map trimL).filter (fun l => 0 < l.length)).map String.mk)

/-- `convertToHTML` from src/lib/converters.ts: wrap the parsed HTML in the
fixed document shell. -/
def convertToHTML (parsed : ParsedMarkdown) (base : String)
    (options : ConversionOptions) (env : Env) : ConversionResult :=
  let metadata := if options.includeMetadata then generateMetadata env else ""
  let htmlContent :=
    "<!DOCTYPE html>\n<html lang=\"en\">\n<head>\n    <meta charset=\"UTF-8\">\n    <meta name=\"viewport\" content=\"width=device-width, initial-scale=1.0\">\n    <title>" ++
    base ++ "</title>\n    <style>" ++ getHTMLStyles ++ "</style>\n    " ++ metadata ++
    "\n</head>\n<body>\n    <article class=\"markdown-content\">\n        " ++ parsed.html ++
    "\n    </article>\n</body>\n</html>"
  { content := if options.prettify then prettifyHTML htmlContent else htmlContent,
    filename := base ++ ".html",
    mimeType := "text/html",
    success := true,
    error := none }

/-- The `jsonData` object built by `convertToJSON`. -/
def jsonDataOf (parsed : ParsedMarkdown) (base : String)
    (options : ConversionOptions) (env : Env) : Json :=
  .obj [("metadata", .obj
          ([("filename", .str base),
            ("convertedAt", .str env.nowIso),
            ("format", .str "json")] ++
           (if options.includeMetadata then
             [("generator", .str "Markdown Converter"), ("version", .str "1.0.0")]
            else []))),
        ("content", .obj
          [("structure", toJSONdoc parsed.tokens),
           ("html", .str parsed.html),
           ("plainText", .str parsed.plainText)])]

/-- `convertToJSON` from src/lib/converters.ts. -/
def convertToJSON (parsed : ParsedMarkdown) (base : String)
    (options : ConversionOptions) (env : Env) : ConversionResult :=
  let jsonData := jsonDataOf parsed base options env
  { content := if options.prettify then jsonData.renderPretty 0 else jsonData.render,
    filename := base ++ ".json",
    mimeType := "application/json",
    success := true,
    error := none }

/-- `convertToPlainText` from src/lib/converters.ts. -/
def convertToPlainText (parsed : ParsedMarkdown) (base : String)
    (options : ConversionOptions) (env : Env) : ConversionResult :=
  let metadata :=
    if options.includeMetadata then
      "File: " ++ base ++ "\nConverted: " ++ env.nowLocale ++ "\nFormat: Plain Text\n" ++
        String.mk (List.replicate 50 '=') ++ "\n"
    else ""
  { content := metadata ++ parsed.plainText,
    filename := base ++ ".txt",
    mimeType := "text/plain",
    success := true,
    error := none }

/-- `FileConverter.convert` from src/lib/converters.ts. The instance field
`this.parser.parse`, which may throw inside the `try` block, is passed as a
function into `Except String`; the `catch` arm builds the failure result
with empty content, filename and mime type. -/
def FileConverter.convert (parse : String → Except String ParsedMarkdown)
    (env : Env) (markdownContent : String) (format : ConversionFormat)
    (options : ConversionOptions) : ConversionResult :=
  match parse markdownContent with
  | .error msg =>
    { content := "", filename := "", mimeType := "", success := false, error := some msg }
  | .ok parsed =>
    let base := getBaseFilename env.nowMs options.originalFilename
    match format with
    | .html => convertToHTML parsed base options env
    | .json => convertToJSON parsed base options env
    | .txt => convertToPlainText parsed base options env

/-- The parser the `FileConverter` constructor builds (sanitize on, HTML
off, breaks and gfm on), wrapped as the never-throwing function the spec
promises for the parse step. -/
def defaultParse (env : Env) : String → Except String ParsedMarkdown :=
  fun s => .ok (MarkdownParser.parse {} env s)

/-- The caller-side gate in `ConversionPanel.handleConvert`
(src/components): when `detectMaliciousContent` fires, the conversion is
never attempted and no `ConversionResult` is produced; otherwise the
converter runs. -/
def handleConvert (parse : String → Except String ParsedMarkdown) (env : Env)
    (markdownContent : String) (format : ConversionFormat)
    (options : ConversionOptions) : Option ConversionResult :=
  if detectMaliciousContent markdownContent then none
  else some (FileConverter.convert parse env markdownContent format options)

/-! ### Operation sequences on the rate limiter, and concrete inputs -/

/-- One public operation on the rate limiter, with the `Date.now()` value
observed during the call. -/
inductive RLOp where
  | can (now : Int)
  | remaining (now : Int)

def RLOp.time : RLOp → Int
  | .can n => n
  | .remaining n => n

/-- The state transition of one operation. -/
def RateLimiter.step (rl : RateLimiter) : RLOp → RateLimiter
  | .can now => (rl.canMakeRequest now).2
  | .remaining now => (rl.getRemainingRequests now).2

/-- Run a sequence of operations from a given state. -/
def runOps (rl : RateLimiter) (ops : List RLOp) : RateLimiter :=
  ops.foldl RateLimiter.step rl

/-- A browser environment (the deployment the client-side app runs in):
`window` is defined; clock values are irrelevant to parsing. -/
def browserEnv : Env :=
  { hasWindow := true, nowMs := 0, nowIso := "", nowLocale := "" }

/-- The sanitization test input of the spec. -/
def c1Input : String := "# Hi\n\n<script>alert(1)</script>\n\nSome *text*"

/-- The HTML the pipeline produces for `c1Input` in a browser. -/
def c1Html : String := (MarkdownParser.parse {} browserEnv c1Input).html

/-- The malicious-source test input of the spec. -/
def malInput : String := "click <a onclick=\"evil()\">here</a>"

/-- The end-to-end JSON scenario input of the spec. -/
def c7Input : String := "# Title\n\n- a\n- b\n\n```js\nconsole.log(1)\n```"

/-- The JSON `content.structure` tree produced for `c7Input`. -/
def c7Structure : Json :=
  toJSONdoc (MarkdownParser.parse {} browserEnv c7Input).tokens

/-! ## Theorems -/

/-- C2: For every input text, format, and options, FileConverter.convert
returns a ConversionResult value and never propagates a raised exception to
its caller (the function is total over any parse outcome, including a
thrown one); whenever the returned result has success:false, its content,
filename, and mimeType fields are the empty string and its error field is
populated, and whenever success:true, error is absent. -/
theorem convert_total_result_contract :
    ∀ (parse : String → Except String ParsedMarkdown) (env : Env)
      (text : String) (format : ConversionFormat) (opts : ConversionOptions),
      ((FileConverter.convert parse env text format opts).success = true ∧
       (FileConverter.convert parse env text format opts).error = none) ∨
      ((FileConverter.convert parse env text format opts).success = false ∧
       (FileConverter.convert parse env text format opts).content = "" ∧
       (FileConverter.convert parse env text format opts).filename = "" ∧
       (FileConverter.convert parse env text format opts).mimeType = "" ∧
       (FileConverter.convert parse env text format opts).error.isSome = true) := by
  intro parse env text format opts
  unfold FileConverter.convert
  cases hp : parse text with
  | error msg => right; exact ⟨rfl, rfl, rfl, rfl, rfl⟩
  | ok parsed =>
    left
    cases format with
    | html => exact ⟨rfl, rfl⟩
    | json => exact ⟨rfl, rfl⟩
    | txt => exact ⟨rfl, rfl⟩

/-- C3 counterexample: the claim asserts that convert() on a source flagged
by detectMaliciousContent returns success:false with empty content because
the core re-validates maliciousness internally; on the code,
FileConverter.convert performs no such re-validation, and on the flagged
input it returns success:true with error absent. -/
theorem convert_ignores_malicious_flag :
    detectMaliciousContent malInput = true ∧
    (FileConverter.convert (defaultParse browserEnv) browserEnv malInput
      ConversionFormat.txt {}).success = true ∧
    (FileConverter.convert (defaultParse browserEnv) browserEnv malInput
      ConversionFormat.txt {}).error = none := by
  exact ⟨by decide, rfl, rfl⟩

/-- C3 amended: detectMaliciousContent returns true on the onclick input;
the maliciousness gate is evaluated only by the caller
(ConversionPanel.handleConvert), which refuses without producing any
ConversionResult; FileConverter.convert itself performs no internal
re-validation and returns success:true with populated content on such
text. -/
theorem malicious_gate_is_caller_side :
    detectMaliciousContent malInput = true ∧
    handleConvert (defaultParse browserEnv) browserEnv malInput
      ConversionFormat.txt {} = none ∧
    (FileConverter.convert (defaultParse browserEnv) browserEnv malInput
      ConversionFormat.txt {}).success = true ∧
    0 < (FileConverter.convert (defaultParse browserEnv) browserEnv malInput
      ConversionFormat.txt {}).content.length := by
  refine ⟨by decide, ?_, rfl, by decide⟩
  unfold handleConvert
  rw [if_pos (by decide)]

/-- C4 counterexample: the claim is an iff — sanitizeUrl returns the url
unchanged if and only if it parses with an allowed scheme. At the input
`#`, the url does not parse (no scheme), yet the returned placeholder `#`
equals the input, so the only-if direction fails. -/
theorem sanitizeUrl_hash_fixed_point :
    sanitizeUrl "#" = "#" ∧ urlAllowed "#" = false := by
  exact ⟨rfl, rfl⟩

/-- C4 amended: sanitizeUrl returns the url unchanged when the url parses
with a scheme among http, https, mailto, and returns the placeholder `#` in
every other case (disallowed scheme or parse failure); the two outcomes
coincide exactly when the input is itself `#`, so the claimed iff holds
except at that input. -/
theorem sanitizeUrl_characterization :
    ∀ url : String, sanitizeUrl url = if urlAllowed url then url else "#" := by
  intro url
  unfold sanitizeUrl urlAllowed
  cases parseProtocol url with
  | none => simp
  | some p =>
    by_cases h : safeProtocols.contains p = true
    · simp [h]
    · simp [h]

/-- C9: plain-text rendering is deterministic — parsing a source text and
rendering it to plain text twice produces identical strings, and the token
sequence and plain text do not depend on the ambient environment at all;
the full parse result (renderedHtml included) depends on no environment
fact beyond which fixed deployment (window present or not) it runs in, and
in particular not on the clock, so within one deployment it is a pure
function of the source text alone. -/
theorem parse_plainText_deterministic :
    ∀ (opts : MarkdownParserOptions) (e1 e2 : Env) (md : String),
      (MarkdownParser.parse opts e1 md).plainText =
        (MarkdownParser.parse opts e2 md).plainText ∧
      (MarkdownParser.parse opts e1 md).tokens =
        (MarkdownParser.parse opts e2 md).tokens ∧
      ∀ (w : Bool) (n1 n2 : Int) (i1 i2 l1 l2 : String),
        MarkdownParser.parse opts ⟨w, n1, i1, l1⟩ md =
          MarkdownParser.parse opts ⟨w, n2, i2, l2⟩ md := by
  intro opts e1 e2 md
  exact ⟨rfl, rfl, fun _ _ _ _ _ _ _ => rfl⟩

/-- C7: the JSON renderer produces a `document` tree whose children carry
the per-kind discriminant and typed fields, with a `type`/`raw` fallback
for unmapped kinds; for the end-to-end input the structure has exactly
three children of types heading, list, code in that order, and the third
carries language `js`. -/
theorem json_renderer_structure :
    c7Structure = Json.obj
      [("type", .str "document"),
       ("children", .arr
         [.obj [("type", .str "heading"), ("level", .num 1), ("text", .str "Title")],
          .obj [("type", .str "list"), ("ordered", .bool false),
            ("items", .arr
              [.obj [("type", .str "list_item"), ("text", .str "a")],
               .obj [("type", .str "list_item"), ("text", .str "b")]])],
          .obj [("type", .str "code"), ("language", .str "js"),
            ("code", .str "console.log(1)")]])] ∧
    (∀ depth text, tokenToJSON (.heading depth text) =
      .obj [("type", .str "heading"), ("level", .num depth), ("text", .str text)]) ∧
    (∀ text, tokenToJSON (.paragraph text) =
      .obj [("type", .str "paragraph"), ("text", .str text)]) ∧
    (∀ ordered items, tokenToJSON (.list ordered items) =
      .obj [("type", .str "list"), ("ordered", .bool ordered),
        ("items", .arr (items.map (fun t =>
          .obj [("type", .str "list_item"), ("text", .str t)])))]) ∧
    (∀ lang text, tokenToJSON (.code lang text) =
      .obj [("type", .str "code"),
        ("language", .str (if lang = "" then "text" else lang)),
        ("code", .str text)]) ∧
    (∀ text, tokenToJSON (.blockquote text) =
      .obj [("type", .str "blockquote"), ("text", .str text)]) ∧
    (∀ ty raw, tokenToJSON (.rawFallback ty raw) =
      .obj [("type", .str ty), ("raw", .str raw)]) ∧
    (∀ tokens, toJSONdoc tokens =
      .obj [("type", .str "document"), ("children", .arr (tokens.map tokenToJSON))]) := by
  refine ⟨rfl, fun _ _ => rfl, fun _ => rfl, fun _ _ => rfl, fun _ _ => rfl,
    fun _ => rfl, fun _ _ => rfl, fun _ => rfl⟩

/-- C8: the plain-text renderer maps headings to repeated `#` plus a space,
ordered items to `N.`, code blocks to backtick fences with the language
tag, blockquotes to `> `, horizontal rules to `---`, and joins blocks by a
blank line — all as claimed — but the unordered-list bullet in the source
file is the three-character mojibake sequence `â€¢` (the UTF-8 bytes of
U+2022 mis-decoded), not the claimed `•`: evaluating the renderer on an
unordered list shows the corrupted bullet and the absence of U+2022. -/
theorem plaintext_renderer_mojibake_bullet :
    (MarkdownParser.parse {} browserEnv "- a\n- b").plainText = "â€¢ a\nâ€¢ b" ∧
    containsStr (MarkdownParser.parse {} browserEnv "- a\n- b").plainText "•" = false ∧
    tokenToPlainText (.list false ["x"]) = "â€¢ x" ∧
    tokenToPlainText (.heading 3 "T") = "### T" ∧
    tokenToPlainText (.paragraph "p") = "p" ∧
    tokenToPlainText (.list true ["a", "b"]) = "1. a\n2. b" ∧
    tokenToPlainText (.code "js" "x") = "```js\nx\n```" ∧
    tokenToPlainText (.code "" "x") = "```\nx\n```" ∧
    tokenToPlainText (.blockquote "q") = "> q" ∧
    tokenToPlainText (.hr "---") = "---" ∧
    toPlainText [.heading 1 "A", .paragraph "B"] = "# A\n\nB" := by
  refine ⟨rfl, by decide, rfl, rfl, rfl, rfl, rfl, rfl, rfl, rfl, rfl⟩

/-- Every piece the sanitization pass keeps satisfies `pieceOk`. -/
theorem sanitizePiece_ok {p q : HtmlPiece} (h : sanitizePiece p = some q) :
    pieceOk q = true := by
  cases p with
  | text t =>
    simp only [sanitizePiece] at h
    cases h
    rfl
  | tag name closing attrs =>
    simp only [sanitizePiece] at h
    by_cases hok : (allowedTags.contains name && !forbiddenTags.contains name) = true
    · rw [if_pos hok] at h
      cases h
      simp only [pieceOk]
      rw [hok, Bool.true_and, List.all_eq_true]
      intro a ha
      exact (List.mem_filter.mp ha).2
    · rw [if_neg hok] at h
      exact Option.noConfusion h

/-- After the sanitization pass, every piece of any HTML string is text or
an allow-listed, non-forbidden tag with only allow-listed, non-forbidden
attributes. -/
theorem sanitized_pieces_all_ok (s : String) :
    (sanitizePieces (lexHtmlStr s)).all pieceOk = true := by
  rw [List.all_eq_true]
  intro p hp
  unfold sanitizePieces at hp
  rw [List.mem_filterMap] at hp
  obtain ⟨q, _, hq⟩ := hp
  exact sanitizePiece_ok hq

/-- C1: for the input `# Hi`, blank line, `<script>alert(1)</script>`,
blank line, `Some *text*`, the HTML the pipeline produces contains
`<h1>Hi</h1>` and `<em>text</em>` and no `<script>` tag; generally, the
pipeline output in a browser is exactly the emission of the sanitized
pieces, each of which is text or a tag on the fixed allow-list with only
allow-listed attributes, and script, object, embed, form, input,
onclick, onload, onerror, onmouseover, style are outside those
allow-lists. -/
theorem html_output_sanitized :
    containsStr c1Html "<h1>Hi</h1>" = true ∧
    containsStr c1Html "<em>text</em>" = true ∧
    containsStr c1Html "<script" = false ∧
    (∀ md : String,
      (MarkdownParser.parse {} browserEnv md).html =
        String.join ((sanitizePieces (lexHtmlStr (renderHtml (parseDocument md)))).map
          emitPiece) ∧
      (sanitizePieces (lexHtmlStr (renderHtml (parseDocument md)))).all pieceOk = true) ∧
    (["script", "object", "embed", "form", "input"].all
      (fun t => !allowedTags.contains t)) = true ∧
    (["onclick", "onload", "onerror", "onmouseover", "style"].all
      (fun a => !allowedAttrs.contains a)) = true := by
  refine ⟨by decide, by decide, by decide,
    fun md => ⟨rfl, sanitized_pieces_all_ok _⟩, by decide, by decide⟩

/-- The head element surviving a `dropWhile` refutes the predicate. -/
theorem dropWhile_head_not {p : Char → Bool} :
    ∀ {l : List Char} {c : Char} {t : List Char},
      l.dropWhile p = c :: t → p c = false := by
  intro l
  induction l with
  | nil =>
    intro c t h
    simp [List.dropWhile] at h
  | cons a as ih =>
    intro c t h
    rw [List.dropWhile_cons] at h
    by_cases hp : p a = true
    · rw [if_pos hp] at h
      exact ih h
    · rw [if_neg hp] at h
      cases h
      simpa using hp

/-- Stripping trailing dots yields a prefix of the original list. -/
theorem stripTrailingDots_initial (l : List Char) : stripTrailingDots l <+: l := by
  unfold stripTrailingDots
  have h : l.reverse.dropWhile (fun c => c = '.') <:+ l.reverse :=
    List.dropWhile_suffix _
  have h2 := List.reverse_prefix.mpr h
  rwa [List.reverse_reverse] at h2

/-- Every character of a sanitized filename lies in `[A-Za-z0-9._-]`. -/
theorem sanitizeFilename_mem {c : Char} {s : String}
    (h : c ∈ (sanitizeFilename s).data) : allowedFilenameChar c = true := by
  unfold sanitizeFilename at h
  have h1 : c ∈ stripTrailingDots (stripLeadingDots (replaceUnsafeChars s.data)) :=
    List.take_subset _ _ h
  have h2 : c ∈ stripLeadingDots (replaceUnsafeChars s.data) :=
    (stripTrailingDots_initial _).subset h1
  have h3 : c ∈ replaceUnsafeChars s.data :=
    (List.dropWhile_sublist _).subset h2
  unfold replaceUnsafeChars at h3
  obtain ⟨a, _, ha⟩ := List.mem_map.mp h3
  by_cases hA : allowedFilenameChar a = true
  · rw [if_pos hA] at ha
    rwa [ha] at hA
  · rw [if_neg hA] at ha
    rw [← ha]
    decide

/-- A sanitized filename never starts with a dot. -/
theorem sanitizeFilename_no_leading_dot (s : String) :
    startsWithDot (sanitizeFilename s) = false := by
  have hpre : (stripTrailingDots (stripLeadingDots (replaceUnsafeChars s.data))).take 255 <+:
      stripLeadingDots (replaceUnsafeChars s.data) :=
    (List.take_prefix _ _).trans (stripTrailingDots_initial _)
  unfold sanitizeFilename startsWithDot
  cases hf : (stripTrailingDots (stripLeadingDots (replaceUnsafeChars s.data))).take 255 with
  | nil => rfl
  | cons c t =>
    rw [hf] at hpre
    obtain ⟨u, hu⟩ := hpre
    have hd : stripLeadingDots (replaceUnsafeChars s.data) = c :: (t ++ u) := by
      rw [← hu, List.cons_append]
    have hc : (fun c => decide (c = '.')) c = false := dropWhile_head_not hd
    simpa using hc

/-- C5: sanitizeFilename is the pipeline replace-unsafe-characters, strip
leading dots, strip trailing dots, truncate to 255, in that order; its
output has only characters in `[A-Za-z0-9._-]`, at most 255 of them, and
never a leading dot; on `../../etc/passwd.md` it yields
`_.._etc_passwd.md`, which has no slash and no leading dot. -/
theorem sanitizeFilename_spec :
    (∀ s : String, sanitizeFilename s =
      String.mk ((stripTrailingDots (stripLeadingDots (replaceUnsafeChars s.data))).take 255)) ∧
    (∀ s : String,
      (sanitizeFilename s).data.all allowedFilenameChar = true ∧
      (sanitizeFilename s).data.length ≤ 255 ∧
      startsWithDot (sanitizeFilename s) = false) ∧
    sanitizeFilename "../../etc/passwd.md" = "_.._etc_passwd.md" ∧
    (sanitizeFilename "../../etc/passwd.md").data.all (fun c => !(c = '/')) = true ∧
    startsWithDot (sanitizeFilename "../../etc/passwd.md") = false := by
  refine ⟨fun s => rfl,
    fun s => ⟨?_, ?_, sanitizeFilename_no_leading_dot s⟩,
    by decide, by decide, by decide⟩
  · rw [List.all_eq_true]
    intro c hc
    exact sanitizeFilename_mem hc
  · exact List.length_take_le _ _

/-- Admission case of the check: strictly fewer retained timestamps than
the cap means the call is admitted and its timestamp recorded. -/
theorem canMakeRequest_accepts (rl : RateLimiter) (now : Int)
    (h : (rl.pruned now).length < rl.maxRequests) :
    rl.canMakeRequest now = (true, { rl with requests := rl.pruned now ++ [now] }) := by
  unfold RateLimiter.canMakeRequest
  rw [if_neg (by omega)]

/-- Refusal case of the check: at or above the cap the call is refused and
only the pruning is retained. -/
theorem canMakeRequest_refuse (rl : RateLimiter) (now : Int)
    (h : rl.maxRequests ≤ (rl.pruned now).length) :
    rl.canMakeRequest now = (false, { rl with requests := rl.pruned now }) := by
  unfold RateLimiter.canMakeRequest
  rw [if_pos h]

/-- C6: canMakeRequest prunes timestamps outside the window, admits and
records the request exactly when fewer than maxRequests remain, and
refuses without recording otherwise; and for a limiter with maxRequests=2,
windowMs=1000, three consecutive calls within 1000ms yield true, true,
false (the refused call recording nothing), and a call made once the
window has elapsed past the accepted requests yields true again. -/
theorem rate_limiter_window :
    (∀ (rl : RateLimiter) (now : Int),
      (rl.canMakeRequest now).1 = decide ((rl.pruned now).length < rl.maxRequests) ∧
      (rl.canMakeRequest now).2.requests =
        rl.pruned now ++ (if (rl.pruned now).length < rl.maxRequests then [now] else []) ∧
      (rl.canMakeRequest now).2.maxRequests = rl.maxRequests ∧
      (rl.canMakeRequest now).2.windowMs = rl.windowMs) ∧
    (∀ t1 t2 t3 t4 : Int, t1 ≤ t2 → t2 ≤ t3 → t3 - t1 < 1000 → t2 + 1000 ≤ t4 →
      ((RateLimiter.init 2 1000).canMakeRequest t1).1 = true ∧
      (((RateLimiter.init 2 1000).canMakeRequest t1).2.canMakeRequest t2).1 = true ∧
      ((((RateLimiter.init 2 1000).canMakeRequest t1).2.canMakeRequest t2).2.canMakeRequest
        t3).1 = false ∧
      ((((RateLimiter.init 2 1000).canMakeRequest t1).2.canMakeRequest t2).2.canMakeRequest
        t3).2.requests = [t1, t2] ∧
      (((((RateLimiter.init 2 1000).canMakeRequest t1).2.canMakeRequest
        t2).2.canMakeRequest t3).2.canMakeRequest t4).1 = true) := by
  constructor
  · intro rl now
    by_cases h : rl.maxRequests ≤ (rl.pruned now).length
    · rw [canMakeRequest_refuse rl now h, if_neg (by omega)]
      refine ⟨by rw [decide_eq_false (by omega)], by rw [List.append_nil], rfl, rfl⟩
    · rw [canMakeRequest_accepts rl now (by omega), if_pos (by omega)]
      exact ⟨(decide_eq_true (by omega)).symm, rfl, rfl, rfl⟩
  · intro t1 t2 t3 t4 h12 h23 h31 h4
    have hp1 : t2 - t1 < 1000 := by omega
    have hp2 : t3 - t1 < 1000 := h31
    have hp3 : t3 - t2 < 1000 := by omega
    have hp4 : ¬(t4 - t1 < 1000) := by omega
    have hp5 : ¬(t4 - t2 < 1000) := by omega
    have e1 : (RateLimiter.init 2 1000).canMakeRequest t1 =
        (true, ⟨2, 1000, [t1]⟩) := by
      rw [canMakeRequest_accepts _ _ (by simp [RateLimiter.pruned, RateLimiter.init])]
      simp [RateLimiter.pruned, RateLimiter.init]
    have q2 : (⟨2, 1000, [t1]⟩ : RateLimiter).pruned t2 = [t1] := by
      simp [RateLimiter.pruned, hp1]
    have e2 : (⟨2, 1000, [t1]⟩ : RateLimiter).canMakeRequest t2 =
        (true, ⟨2, 1000, [t1, t2]⟩) := by
      rw [canMakeRequest_accepts _ _ (by rw [q2]; simp), q2]
      rfl
    have q3 : (⟨2, 1000, [t1, t2]⟩ : RateLimiter).pruned t3 = [t1, t2] := by
      simp [RateLimiter.pruned, hp2, hp3]
    have e3 : (⟨2, 1000, [t1, t2]⟩ : RateLimiter).canMakeRequest t3 =
        (false, ⟨2, 1000, [t1, t2]⟩) := by
      rw [canMakeRequest_refuse _ _ (by rw [q3]; simp), q3]
    have q4 : (⟨2, 1000, [t1, t2]⟩ : RateLimiter).pruned t4 = [] := by
      simp [RateLimiter.pruned, hp4, hp5]
    have e4 : (⟨2, 1000, [t1, t2]⟩ : RateLimiter).canMakeRequest t4 =
        (true, ⟨2, 1000, [t4]⟩) := by
      rw [canMakeRequest_accepts _ _ (by rw [q4]; simp), q4]
      rfl
    rw [e1]
    rw [e2]
    rw [e3]
    rw [e4]
    exact ⟨rfl, rfl, rfl, rfl, rfl⟩

/-- Concrete instantiation of the rate-limiter scenario at times 0, 1, 2
and 1001. -/
theorem rate_limiter_window_witness :
    ((0:Int) ≤ 1 ∧ (1:Int) ≤ 2 ∧ (2:Int) - 0 < 1000 ∧ (1:Int) + 1000 ≤ 1001) ∧
    (((RateLimiter.init 2 1000).canMakeRequest 0).1 = true ∧
     (((RateLimiter.init 2 1000).canMakeRequest 0).2.canMakeRequest 1).1 = true ∧
     ((((RateLimiter.init 2 1000).canMakeRequest 0).2.canMakeRequest 1).2.canMakeRequest
       2).1 = false ∧
     ((((RateLimiter.init 2 1000).canMakeRequest 0).2.canMakeRequest 1).2.canMakeRequest
       2).2.requests = [0, 1] ∧
     (((((RateLimiter.init 2 1000).canMakeRequest 0).2.canMakeRequest
       1).2.canMakeRequest 2).2.canMakeRequest 1001).1 = true) :=
  ⟨by decide, rate_limiter_window.2 0 1 2 1001 (by decide) (by decide) (by decide)
    (by decide)⟩

/-- A step never changes the configured cap. -/
theorem step_maxRequests (rl : RateLimiter) (op : RLOp) :
    (rl.step op).maxRequests = rl.maxRequests := by
  cases op with
  | can now =>
    by_cases h : rl.maxRequests ≤ (rl.pruned now).length
    · rw [RateLimiter.step, canMakeRequest_refuse rl now h]
    · rw [RateLimiter.step, canMakeRequest_accepts rl now (by omega)]
  | remaining now => rfl

/-- A step never changes the configured window. -/
theorem step_windowMs (rl : RateLimiter) (op : RLOp) :
    (rl.step op).windowMs = rl.windowMs := by
  cases op with
  | can now =>
    by_cases h : rl.maxRequests ≤ (rl.pruned now).length
    · rw [RateLimiter.step, canMakeRequest_refuse rl now h]
    · rw [RateLimiter.step, canMakeRequest_accepts rl now (by omega)]
  | remaining now => rfl

/-- A step preserves the cap on the retained-timestamp count. -/
theorem step_len (rl : RateLimiter) (op : RLOp)
    (h : rl.requests.length ≤ rl.maxRequests) :
    (rl.step op).requests.length ≤ rl.maxRequests := by
  have hp : ∀ now : Int, (rl.pruned now).length ≤ rl.requests.length :=
    fun now => List.length_filter_le _ _
  cases op with
  | can now =>
    by_cases hc : rl.maxRequests ≤ (rl.pruned now).length
    · rw [RateLimiter.step, canMakeRequest_refuse rl now hc]
      exact le_trans (hp now) h
    · rw [RateLimiter.step, canMakeRequest_accepts rl now (by omega)]
      have := hp now
      simp only [List.length_append, List.length_cons, List.length_nil]
      omega
  | remaining now =>
    exact le_trans (hp now) h

/-- After a step, every retained timestamp lies within the window of that
step's `now` (the time of the last pruning), provided the window is
positive. -/
theorem step_recency (rl : RateLimiter) (op : RLOp) (hw : 0 < rl.windowMs) :
    ∀ t ∈ (rl.step op).requests, op.time - t < rl.windowMs := by
  have hmem : ∀ (now t : Int), t ∈ rl.pruned now → now - t < rl.windowMs := by
    intro now t ht
    exact of_decide_eq_true (List.mem_filter.mp ht).2
  cases op with
  | can now =>
    by_cases hc : rl.maxRequests ≤ (rl.pruned now).length
    · rw [RateLimiter.step, canMakeRequest_refuse rl now hc]
      intro t ht
      exact hmem now t ht
    · rw [RateLimiter.step, canMakeRequest_accepts rl now (by omega)]
      intro t ht
      rcases List.mem_append.mp ht with h1 | h2
      · exact hmem now t h1
      · have : t = now := by simpa using h2
        subst this
        simpa [RLOp.time] using hw
  | remaining now =>
    intro t ht
    exact hmem now t ht

/-- Running operations never changes the configured cap. -/
theorem runOps_maxRequests (ops : List RLOp) :
    ∀ rl : RateLimiter, (runOps rl ops).maxRequests = rl.maxRequests := by
  induction ops with
  | nil => intro rl; rfl
  | cons op rest ih =>
    intro rl
    have h1 : runOps rl (op :: rest) = runOps (rl.step op) rest := rfl
    rw [h1, ih, step_maxRequests]

/-- Running operations never changes the configured window. -/
theorem runOps_windowMs (ops : List RLOp) :
    ∀ rl : RateLimiter, (runOps rl ops).windowMs = rl.windowMs := by
  induction ops with
  | nil => intro rl; rfl
  | cons op rest ih =>
    intro rl
    have h1 : runOps rl (op :: rest) = runOps (rl.step op) rest := rfl
    rw [h1, ih, step_windowMs]

/-- Running operations preserves the cap on the retained-timestamp count. -/
theorem runOps_len (ops : List RLOp) :
    ∀ rl : RateLimiter, rl.requests.length ≤ rl.maxRequests →
      (runOps rl ops).requests.length ≤ rl.maxRequests := by
  induction ops with
  | nil => intro rl h; exact h
  | cons op rest ih =>
    intro rl h
    have h1 : runOps rl (op :: rest) = runOps (rl.step op) rest := rfl
    rw [h1, ← step_maxRequests rl op]
    exact ih _ (by rw [step_maxRequests]; exact step_len rl op h)

/-- C10: starting from a fresh limiter with a positive window, after any
sequence of canMakeRequest and getRemainingRequests calls the retained
timestamp list never holds more than maxRequests entries and every retained
timestamp is within windowMs of the time of the last call (the last
pruning); and getRemainingRequests always reports a count between 0 and
maxRequests inclusive. -/
theorem rate_limiter_invariant :
    (∀ (maxR : Nat) (window : Int), 0 < window →
      ∀ (ops : List RLOp) (op : RLOp),
        (runOps (RateLimiter.init maxR window) (ops ++ [op])).requests.length ≤ maxR ∧
        ∀ t ∈ (runOps (RateLimiter.init maxR window) (ops ++ [op])).requests,
          op.time - t < window) ∧
    (∀ (rl : RateLimiter) (now : Int),
      (rl.getRemainingRequests now).1 ≤ rl.maxRequests) := by
  constructor
  · intro maxR window hw ops op
    have hsplit : runOps (RateLimiter.init maxR window) (ops ++ [op]) =
        (runOps (RateLimiter.init maxR window) ops).step op := by
      unfold runOps
      rw [List.foldl_append]
      rfl
    set mid := runOps (RateLimiter.init maxR window) ops with hmid
    have hmax : mid.maxRequests = maxR := runOps_maxRequests ops _
    have hwin : mid.windowMs = window := runOps_windowMs ops _
    have hlen : mid.requests.length ≤ mid.maxRequests := by
      rw [hmax]
      have h0 : (RateLimiter.init maxR window).requests.length ≤ maxR := by
        simp [RateLimiter.init]
      exact runOps_len ops _ h0
    constructor
    · rw [hsplit, ← hmax]
      exact step_len mid op hlen
    · rw [hsplit, ← hwin]
      exact step_recency mid op (by rw [hwin]; exact hw)
  · intro rl now
    exact Nat.sub_le _ _

/-- Concrete instantiation of the invariant: window 1000, cap 2, three
operations ending at time 2. -/
theorem rate_limiter_invariant_witness :
    (0:Int) < 1000 ∧
    ((runOps (RateLimiter.init 2 1000)
        ([RLOp.can 0, RLOp.remaining 1] ++ [RLOp.can 2])).requests.length ≤ 2 ∧
     ∀ t ∈ (runOps (RateLimiter.init 2 1000)
        ([RLOp.can 0, RLOp.remaining 1] ++ [RLOp.can 2])).requests,
       (RLOp.can 2).time - t < 1000) :=
  ⟨by decide,
   rate_limiter_invariant.1 2 1000 (by decide) [RLOp.can 0, RLOp.remaining 1] (RLOp.can 2)⟩

end MdConv
